import Mathlib

/-!
Verification of the segment-orchestration and summary-synthesis core of the
OnseiGijiroku meeting-minutes generator.

The Python sources (`main.py`, `gemini_service.py`) are shallowly embedded:
text is `List Char` (Python `str` is a sequence of code points, which matches
`List Char` exactly, including `len`, slicing and `in`), external provider
calls (upload, readiness polling, generation, deletion) are oracle
parameters, and fallible code returns `Except`.
-/

namespace Onsei

/-- Characters stripped by Python `str.strip()` (the whitespace code points
that actually occur in this pipeline's data). -/
def isPyWs (c : Char) : Bool :=
  c = ' ' || c = '\t' || c = '\n' || c = '\r' || c = '\x0b' ||
  c = '\x0c' || c = ' ' || c = '　'

/-- Python `str.strip()`: drop leading and trailing whitespace. -/
def stripChars (l : List Char) : List Char :=
  ((l.dropWhile isPyWs).reverse.dropWhile isPyWs).reverse

/-- Python `str.startswith(p)`. -/
def begWith : List Char → List Char → Bool
  | _, [] => true
  | [], _ :: _ => false
  | c :: s, d :: p => c = d && begWith s p

/-- Python `str.endswith(p)`. -/
def endWith (s p : List Char) : Bool :=
  begWith s.reverse p.reverse

/-- Python `str.find(p)`: index of the first occurrence of `p` in `s`,
`none` when absent (Python returns `-1`). -/
def subIdx : List Char → List Char → Option Nat
  | [], p => if p = [] then some 0 else none
  | c :: t, p => if begWith (c :: t) p then some 0 else (subIdx t p).map (· + 1)

/-- Python `p in s` (substring test). -/
def containsSub (s p : List Char) : Bool :=
  (subIdx s p).isSome

/-- Python `s.split(p, 1)[1]`: the text after the first occurrence of `p`,
when `p` occurs in `s`. -/
def afterFirst (s p : List Char) : Option (List Char) :=
  (subIdx s p).map (fun i => s.drop (i + p.length))

/-- Python `s[:s.find(p)]` when `p` occurs in `s`, else `s` unchanged. -/
def truncBefore (s p : List Char) : List Char :=
  match subIdx s p with
  | some i => s.take i
  | none => s

/-- Python `s.split("\n")` (keeps empty chunks; `"".split("\n") == [""]`). -/
def splitNl : List Char → List (List Char)
  | [] => [[]]
  | c :: rest =>
    let r := splitNl rest
    if c = '\n' then [] :: r
    else
      match r with
      | h :: t => (c :: h) :: t
      | [] => [[c]]

/-- Python `"\n".join(ls)`. -/
def joinNl : List (List Char) → List Char
  | [] => []
  | [x] => x
  | x :: xs => x ++ '\n' :: joinNl xs

/-! ## `GeminiService._extract_confirmation_items` (gemini_service.py:290-370) -/

/-- The `section_markers` list (gemini_service.py:310-317), tried in order. -/
def sectionMarkers : List (List Char) :=
  ["4. 次回までの確認", "4.次回までの確認", "次回までの確認・準備",
   "確認・準備事項", "【💡確認事項】", "💡確認事項"].map String.toList

/-- The end-of-section markers (gemini_service.py:326). -/
def endMarkers : List (List Char) :=
  ["\n5.", "\n5 .", "\n##", "\n---"].map String.toList

/-- Bullet prefixes stripped from item lines (gemini_service.py:340). -/
def bulletMarks : List (List Char) :=
  ["• ", "- ", "* ", "・"].map String.toList

/-- gemini_service.py:340-343: strip the first matching bullet prefix and
re-strip whitespace (`line[len(prefix):].strip()`). -/
def stripBullet (l : List Char) : List Char :=
  match bulletMarks.find? (fun p => begWith l p) with
  | some p => stripChars (l.drop p.length)
  | none => l

/-- gemini_service.py:345-347: remove a leading `N. ` enumeration when the
first character is a digit and `". "` occurs within the first 4 characters. -/
def stripNum (l : List Char) : List Char :=
  if l ≠ [] ∧ (l.headD ' ').isDigit ∧ containsSub (l.take 4) ". ".toList then
    match afterFirst l ". ".toList with
    | some r => stripChars r
    | none => l
  else l

/-- gemini_service.py:319-330: find the confirmation section: the text after
the first marker (in marker-priority order) that occurs in `text`, then
successively truncated before each end marker that occurs in it. -/
def findSection (text : List Char) : Option (List Char) :=
  match sectionMarkers.find? (fun m => containsSub text m) with
  | none => none
  | some m =>
    (afterFirst text m).map (fun sec => endMarkers.foldl truncBefore sec)

/-- gemini_service.py:334-354: one line of the confirmation section, returning
the extracted item or `none` when the line is skipped. -/
def sectionLineItem (line : List Char) : Option (List Char) :=
  let l := stripChars line
  if l = [] ∨ l = "なし".toList ∨ l = "特になし".toList then none
  else
    let l := stripNum (stripBullet l)
    if begWith l "【".toList ∧ endWith l "】".toList then none
    else if 3 < l.length then some l
    else none

/-- Items produced by the section-based phase of
`_extract_confirmation_items` (empty when no marker is found). -/
def sectionItems (text : List Char) : List (List Char) :=
  match findSection text with
  | none => []
  | some sec => (splitNl sec).filterMap sectionLineItem

/-- The keyword list of the whole-text fallback scan (gemini_service.py:365). -/
def kwList : List (List Char) :=
  ["確認する", "検討する", "調べる", "準備する"].map String.toList

/-- gemini_service.py:357-367: the whole-text keyword fallback scan,
deduplicating by exact string (`line not in items`). -/
def kwScan (text : List Char) : List (List Char) :=
  (splitNl text).foldl
    (fun items line =>
      let l := stripBullet (stripChars line)
      if kwList.any (fun k => containsSub l k) ∧ l ≠ [] ∧ 5 < l.length ∧
          l ∉ items then
        items ++ [l]
      else items)
    []

/-- `_extract_confirmation_items` (gemini_service.py:290-370): section-based
extraction, keyword fallback when it yields no items, truncated to 10. -/
def extractConfirmationItems (text : List Char) : List (List Char) :=
  let items := sectionItems text
  (if items.length = 0 then kwScan text else items).take 10

/-- String-level wrapper of `extractConfirmationItems`. -/
def extractItemsStr (s : String) : List String :=
  (extractConfirmationItems s.toList).map fun l => String.mk l

example :
    extractItemsStr
      "4. 次回までの確認・準備事項\n【お客様】\n・見積書確認\n5. 補足メモ\n特になし"
      = ["準備事項", "見積書確認"] := by decide

/-! ## `GeminiService.merge_summaries` and `_fallback_merge`
(gemini_service.py:234-288) -/

/-- Provider-side merge failure (the exception raised by
`generate_content`); its payload is irrelevant to the caller. -/
inductive PErr where
  | providerFailure
deriving DecidableEq

/-- Python `str(n)` for the segment numbering. -/
def natChars (n : Nat) : List Char := (toString n).toList

/-- Python `sep.join(ls)`. -/
def joinWith (sep : List Char) : List (List Char) → List Char
  | [] => []
  | [x] => x
  | x :: xs => x ++ sep ++ joinWith sep xs

/-- Python `template.format(...)` for a template with a single placeholder:
replace the first occurrence of `pat` by `rep`. -/
def replaceOnce (s pat rep : List Char) : List Char :=
  match subIdx s pat with
  | some i => s.take i ++ rep ++ s.drop (i + pat.length)
  | none => s

/-- The `merge_prompt` template (gemini_service.py:95-135). -/
def mergePromptTemplate : List Char :=
  ("あなたは注文住宅会社の優秀な営業アシスタントです。\n以下は同じ打合せを分割して記録した内容です。これを1つの読みやすい議事録にまとめてください。\n\n【重要な指示】\n・分割された記録の内容を全て確認し、重要な情報は漏らさず含めてください\n・重複する内容は1回のみ記載してください\n・具体的な数字、品番、色、サイズなどの情報は必ず残してください\n・出力はA4用紙2枚程度（約2000〜2500文字）を目安にしてください\n\n【出力形式】必ず以下の5セクション構成で出力してください。\n箇条書きには「・」のみ使用し、「*」「#」は使用しないでください。\n\n1. 打合せ概要\n打合せの目的や主なテーマを2〜3行で記載\n\n2. 打合せ内容\n話し合われた内容を具体的に箇条書きで記載してください。\n・議題ごとに内容をまとめる\n・具体的な仕様、金額、サイズなどの情報を含める\n・お客様の要望や質問も記載する\n・営業からの説明や提案も記載する\n\n3. 決定事項\nこの打合せで確定・決定したことを明確に箇条書きで記載\n・決定した仕様や選択\n・合意した内容\n\n4. 次回までの確認・準備事項\n【お客様】\n・お客様側で確認・準備すること\n【当社】\n・会社側で確認・準備すること\n\n5. 補足メモ\nその他の気づきや注意点（なければ「特になし」）\n\n---\n【分割された記録】\n{summaries}\n\n上記の全ての記録内容を確認し、情報を漏らさないよう注意して議事録を作成してください。").toList

/-- gemini_service.py:248-253: number the partial summaries
(`--- セグメント i/N ---`), join them with blank lines, and substitute them
into the merge prompt template. -/
def buildMergePrompt (summaries : List (List Char)) : List Char :=
  let numbered := joinWith "\n\n".toList
    (summaries.enum.map (fun p =>
      "--- セグメント ".toList ++ natChars (p.1 + 1) ++ "/".toList ++
      natChars summaries.length ++ " ---\n".toList ++ p.2))
  replaceOnce mergePromptTemplate "{summaries}".toList numbered

/-- gemini_service.py:278-283: every whitespace-stripped line starting with
the bullet marker `・`, collected across all summaries in input order. -/
def bulletLines (summaries : List (List Char)) : List (List Char) :=
  summaries.foldr
    (fun s acc =>
      (splitNl s).filterMap
        (fun line =>
          let l := stripChars line
          if l ≠ [] ∧ begWith l "・".toList then some l else none) ++ acc)
    []

/-- Python `list(dict.fromkeys(xs))` (gemini_service.py:286): drop exact
duplicates keeping the first occurrence, preserving order. `seen` is the set
of keys already inserted. -/
def dedupFirstAux : List (List Char) → List (List Char) → List (List Char)
  | [], _ => []
  | a :: l, seen =>
    if a ∈ seen then dedupFirstAux l seen
    else a :: dedupFirstAux l (a :: seen)

/-- `list(dict.fromkeys(xs))` from the empty seen-set. -/
def dedupFirst (l : List (List Char)) : List (List Char) :=
  dedupFirstAux l []

/-- `GeminiService._fallback_merge` (gemini_service.py:273-288): bullet lines
of all summaries in order, exact-deduplicated first-occurrence-first, first
20 kept, under the fixed heading. Total — never raises. -/
def fallbackMerge (summaries : List (List Char)) : List Char :=
  "【打合せ内容】\n".toList ++ joinNl ((dedupFirst (bulletLines summaries)).take 20)

/-- `GeminiService.merge_summaries` (gemini_service.py:234-271): send the
built prompt to the provider (`generate_content`, modelled as the oracle
`provider`); on success return the stripped response text, on any provider
exception return the local fallback. -/
def mergeSummaries (provider : List Char → Except PErr (List Char))
    (summaries : List (List Char)) : List Char :=
  match provider (buildMergePrompt summaries) with
  | .ok t => stripChars t
  | .error _ => fallbackMerge summaries

/-- `merge_summaries` together with the log of provider generation calls it
makes (always exactly one: gemini_service.py:255). -/
def mergeSummariesTr (provider : List Char → Except PErr (List Char))
    (summaries : List (List Char)) : List Char × List (List Char) :=
  (mergeSummaries provider summaries, [buildMergePrompt summaries])

/-- The merge phase of `upload_audio` (main.py:331-338): merge only when
there is more than one segment summary, otherwise pass `summaries[0]`
through; paired with the log of provider merge calls made. -/
def mergePhase (provider : List Char → Except PErr (List Char))
    (summaries : List (List Char)) : List Char × List (List Char) :=
  if 1 < summaries.length then mergeSummariesTr provider summaries
  else (summaries.headD [], [])

/-- The `/api/merge` endpoint (main.py:376-409): HTTP 400 on an empty list,
pass-through for a single summary, provider merge otherwise; paired with the
log of provider merge calls made. -/
def mergeEndpoint (provider : List Char → Except PErr (List Char))
    (summaries : List (List Char)) :
    Except Nat (List Char) × List (List Char) :=
  if summaries.length = 0 then (.error 400, [])
  else if summaries.length = 1 then (.ok (summaries.headD []), [])
  else (.ok (mergeSummariesTr provider summaries).1,
        (mergeSummariesTr provider summaries).2)

/-! ## `GeminiService.analyze_audio` (gemini_service.py:137-232) -/

/-- Remote upload handle state (`audio_file.state.name`). -/
inductive FState where
  | processing
  | active
  | failed
deriving DecidableEq

/-- Errors surfaced by `analyze_audio`: upload failure (wrapped in a
`ValueError`), poll timeout (`TimeoutError`), remote processing failure
(`ValueError`), and a generation-call failure (reclassified provider
exception). -/
inductive AErr where
  | uploadFailed
  | timeout
  | processingFailed
  | genError
deriving DecidableEq

/-- The analysis result dict (gemini_service.py:225-228). -/
structure AnalyzeOut where
  summary : List Char
  items : List (List Char)
deriving DecidableEq

/-- `_remove_confirmation_section` (gemini_service.py:372-384): deliberately
returns the text unchanged (the prompt keeps confirmation items in the
minutes body). -/
def removeConfirmationSection (t : List Char) : List Char := t

/-- The readiness-wait loop of `analyze_audio` (gemini_service.py:163-172):
`while state == "PROCESSING": if wait_count >= 30: raise TimeoutError;
sleep(2); state := get_file(); wait_count += 1`. `fuelR` is
`30 - wait_count`, `k` counts the `get_file` polls performed, and `poll k`
is the state returned by the `k`-th poll. Returns the exit state (or the
timeout error) and the number of polls performed. -/
def pollLoop (poll : Nat → FState) : Nat → Nat → FState → Except AErr FState × Nat
  | fuelR, k, st =>
    if st = .processing then
      match fuelR with
      | 0 => (.error .timeout, k)
      | r + 1 => pollLoop poll r (k + 1) (poll k)
    else (.ok st, k)

/-- `analyze_audio` (gemini_service.py:137-232), with the external provider
modelled as oracles: `up` is the upload outcome (initial handle state),
`poll` the stream of `get_file` states, `gen` the `generate_content`
outcome, and `del'` the `delete_file` outcome. Returns the result of the
call and whether the remote-handle deletion was attempted. The deletion
outcome `del'` is deliberately unused: the code catches and only logs its
failure (gemini_service.py:219-223), and there is no `finally`, so deletion
happens only on the success path. -/
def analyzeAudio (up : Except AErr FState) (poll : Nat → FState)
    (gen : Except AErr (List Char)) (_del : Except AErr Unit) :
    Except AErr AnalyzeOut × Bool :=
  match up with
  | .error _ => (.error .uploadFailed, false)
  | .ok st₀ =>
    match (pollLoop poll 30 0 st₀).1 with
    | .error e => (.error e, false)
    | .ok st =>
      if st = .failed then (.error .processingFailed, false)
      else
        match gen with
        | .error _ => (.error .genError, false)
        | .ok text =>
          let items := extractConfirmationItems text
          let summary := removeConfirmationSection text
          (.ok ⟨stripChars summary, items⟩, true)

/-! ## The parallel dispatch of `upload_audio` (main.py:318-325)

`tasks = [analyze_audio(f) for f in processed_files]` followed by
`asyncio.gather(*tasks)`. The completion interleaving is modelled as the
list `order` of task indices in the order the calls finish; `gather` stores
each finished result in the slot of its input ordinal (first exception
aborts the whole batch) and finally reads the slots back in input order. -/

/-- Gather failure: a task raised, or (never reachable when every task
completes) a slot was left unfilled. -/
inductive GErr (ε : Type) where
  | taskErr (e : ε)
  | incomplete

/-- Slot lookup by task index. -/
def lookupNat {α : Type} : Nat → List (Nat × α) → Option α
  | _, [] => none
  | j, (k, a) :: t => if j = k then some a else lookupNat j t

/-- Process completions in completion order, accumulating `(index, value)`
slots; the first exception encountered aborts. -/
def gatherLoop {ε α : Type} (tasks : List (Except ε α)) :
    List Nat → List (Nat × α) → Except ε (List (Nat × α))
  | [], acc => .ok acc
  | i :: rest, acc =>
    match tasks.get? i with
    | none => gatherLoop tasks rest acc
    | some (.error e) => .error e
    | some (.ok a) => gatherLoop tasks rest ((i, a) :: acc)

/-- Read `m` result slots starting at index `start`, in input order. -/
def readSlots {α : Type} (acc : List (Nat × α)) : Nat → Nat → Option (List α)
  | _, 0 => some []
  | start, m + 1 =>
    match lookupNat start acc with
    | some a => (readSlots acc (start + 1) m).map (a :: ·)
    | none => none

/-- `asyncio.gather(*tasks)` under completion interleaving `order`. -/
def asyncGather {ε α : Type} (tasks : List (Except ε α)) (order : List Nat) :
    Except (GErr ε) (List α) :=
  match gatherLoop tasks order [] with
  | .error e => .error (.taskErr e)
  | .ok acc =>
    match readSlots acc 0 tasks.length with
    | some out => .ok out
    | none => .error .incomplete

/-- The per-segment dispatch of `upload_audio` (main.py:318-325): one
analysis task per processed file, in input order, gathered. -/
def dispatchSegments {σ ε α : Type} (analyze : σ → Except ε α)
    (files : List σ) (order : List Nat) : Except (GErr ε) (List α) :=
  asyncGather (files.map analyze) order

/-! ## The Deduplicator (spec §4.3)

Modelled from the spec: the Deduplicator's `clean` operation is not present
under `src/` (none of the four source files contains it); the definitions
below follow spec §4.3 word by word. Text is represented line-orientedly
(spec: "`clean(text) -> text`, line-oriented") as its list of lines. -/

/-- Modelled from the spec: the similarity ratio of §4.3 — "count of
characters of the shorter string that also appear anywhere in the longer
string, divided by the length of the longer string", compared against the
0.8 threshold (in exact arithmetic: `5 * count > 4 * longer length`). -/
def simGt (a b : List Char) : Bool :=
  let s := if a.length ≤ b.length then a else b
  let t := if a.length ≤ b.length then b else a
  5 * (s.filter (fun c => t.contains c)).length > 4 * t.length

/-- Modelled from the spec: both lines start with the bullet marker `・` and
their contents (marker stripped) exceed the 0.8 similarity threshold. -/
def bulletSim (p n : List Char) : Bool :=
  p.headD ' ' = '・' && n.headD ' ' = '・' && simGt (p.drop 1) (n.drop 1)

/-- Modelled from the spec: a section-header line for §4.3's header
de-duplication — "lines beginning with a digit followed by `. ` within the
first five characters". -/
def isHdr (l : List Char) : Bool :=
  (l.headD ' ').isDigit && containsSub (l.take 5) ". ".toList

/-- Modelled from the spec: the header key — "a key (first 5 characters)". -/
def hdrKey (l : List Char) : List Char := l.take 5

/-- Modelled from the spec: the line filter of §4.3. `prev` is the
normalized previous kept non-blank line (`none` at the start and after a
blank line, which "resets the previous-line tracking"), `run` the length of
the current run of consecutive equal lines, and `seen` the set of header
keys already remembered. A normalized line equal to `prev` is kept while
the run is below 2 ("a single repeat is tolerated") and dropped from the
third occurrence onward; a bullet line too similar to the previous bullet
is dropped; a header line whose key repeats is dropped; blank lines always
pass through. -/
def cleanGo : List (List Char) → Option (List Char) → Nat → List (List Char) →
    List (List Char)
  | [], _, _, _ => []
  | line :: rest, none, run, seen =>
    if stripChars line = [] then line :: cleanGo rest none 0 seen
    else if isHdr (stripChars line) then
      if hdrKey (stripChars line) ∈ seen then cleanGo rest none run seen
      else line ::
        cleanGo rest (some (stripChars line)) 1 (hdrKey (stripChars line) :: seen)
    else line :: cleanGo rest (some (stripChars line)) 1 seen
  | line :: rest, some p, run, seen =>
    if stripChars line = [] then line :: cleanGo rest none 0 seen
    else if stripChars line = p then
      if 2 ≤ run then cleanGo rest (some p) (run + 1) seen
      else line :: cleanGo rest (some p) (run + 1) seen
    else if bulletSim p (stripChars line) then cleanGo rest (some p) run seen
    else if isHdr (stripChars line) then
      if hdrKey (stripChars line) ∈ seen then cleanGo rest (some p) run seen
      else line ::
        cleanGo rest (some (stripChars line)) 1 (hdrKey (stripChars line) :: seen)
    else line :: cleanGo rest (some (stripChars line)) 1 seen

/-- Modelled from the spec: the Deduplicator's `clean` (§4.3), on a text
given as its list of lines. -/
def clean (lines : List (List Char)) : List (List Char) :=
  cleanGo lines none 0 []

example :
    clean (["・予算は500万円です", "・予算は500万円程度です"].map String.toList)
      = ["・予算は500万円です"].map String.toList := by decide

example :
    clean (["a", "a", "a", "a", "b"].map String.toList)
      = ["a", "a", "b"].map String.toList := by decide

/-! ## Theorems -/

/-- C5: For a single-element list of partial summaries, the merge step
(both the merge phase of `upload_audio`, main.py:332-338, and the
`/api/merge` endpoint, main.py:393-398) returns that element unchanged and
makes no provider merge call (the provider-call log is empty). -/
theorem single_summary_merge_identity
    (provider : List Char → Except PErr (List Char)) (s : List Char) :
    mergePhase provider [s] = (s, []) ∧
    mergeEndpoint provider [s] = (.ok s, []) := by
  constructor <;> rfl

/-- C10: The confirmation-section removal step (`_remove_confirmation_section`,
gemini_service.py:372-384) is the identity, and consequently the summary
returned by a successful `analyze_audio` call is the generated text with only
surrounding whitespace stripped. -/
theorem remove_confirmation_identity (t : List Char) (st₀ : FState)
    (poll : Nat → FState) (d : Except AErr Unit) (r : AnalyzeOut) :
    removeConfirmationSection t = t ∧
    ((analyzeAudio (.ok st₀) poll (.ok t) d).1 = .ok r →
      r.summary = stripChars t) := by
  refine ⟨rfl, ?_⟩
  intro h
  simp only [analyzeAudio] at h
  split at h
  · exact absurd h (by simp)
  · split at h
    · exact absurd h (by simp)
    · simp only [removeConfirmationSection, Prod.fst] at h
      cases h
      rfl

theorem remove_confirmation_identity_witness :
    removeConfirmationSection ([] : List Char) = [] ∧
    (AnalyzeOut.mk [] []).summary = stripChars [] :=
  ⟨(remove_confirmation_identity [] .active (fun _ => .active) (.ok ())
      ⟨[], []⟩).1,
   (remove_confirmation_identity [] .active (fun _ => .active) (.ok ())
      ⟨[], []⟩).2 rfl⟩

/-- C7 counterexample: with the upload succeeding, the handle immediately
ACTIVE and `generate_content` raising, `analyze_audio` propagates the
generation error and never attempts the remote-handle deletion (the
attempted-flag is `false`): there is no `finally` around
gemini_service.py:218-223, so the claim that deletion is attempted "whether
generation succeeded or raised" is false. -/
theorem cleanup_skipped_on_generation_failure :
    analyzeAudio (.ok .active) (fun _ => .active) (.error .genError) (.ok ())
      = (.error .genError, false) := by
  rfl

/-- C7 amended: the remote-handle deletion is attempted whenever
`analyze_audio` returns successfully (deletion happens on the success path
only), and the outcome of the deletion attempt never affects the result of
the call — a deletion failure is logged and never propagated
(gemini_service.py:219-223). -/
theorem cleanup_best_effort (up : Except AErr FState) (poll : Nat → FState)
    (gen : Except AErr (List Char)) (d₁ d₂ : Except AErr Unit) :
    analyzeAudio up poll gen d₁ = analyzeAudio up poll gen d₂ ∧
    (∀ r, (analyzeAudio up poll gen d₁).1 = .ok r →
      (analyzeAudio up poll gen d₁).2 = true) := by
  refine ⟨rfl, ?_⟩
  intro r h
  cases up with
  | error e => simp [analyzeAudio] at h
  | ok st₀ =>
    simp only [analyzeAudio] at h ⊢
    cases hp : (pollLoop poll 30 0 st₀).1 with
    | error e => simp [hp] at h
    | ok st =>
      simp only [hp] at h ⊢
      by_cases hf : st = FState.failed
      · simp [hf] at h
      · simp only [if_neg hf] at h ⊢
        cases gen with
        | error e => simp at h
        | ok text => rfl

theorem cleanup_best_effort_witness :
    analyzeAudio (.ok .active) (fun _ => .active) (.ok []) (.ok ())
      = analyzeAudio (.ok .active) (fun _ => .active) (.ok [])
          (.error .genError) ∧
    (analyzeAudio (.ok .active) (fun _ => .active) (.ok []) (.ok ())).2
      = true :=
  ⟨(cleanup_best_effort (.ok .active) (fun _ => .active) (.ok []) (.ok ())
      (.error .genError)).1,
   (cleanup_best_effort (.ok .active) (fun _ => .active) (.ok []) (.ok ())
      (.error .genError)).2 ⟨[], []⟩ rfl⟩

/-- The readiness-wait loop performs at most `k + fuelR` polls in total. -/
theorem pollLoop_count_le (poll : Nat → FState) :
    ∀ (fuelR k : Nat) (st : FState),
      (pollLoop poll fuelR k st).2 ≤ k + fuelR := by
  intro fuelR
  induction fuelR with
  | zero =>
    intro k st
    simp only [pollLoop]
    split
    · simp
    · simp
  | succ r ih =>
    intro k st
    simp only [pollLoop]
    split
    · calc (pollLoop poll r (k + 1) (poll k)).2 ≤ (k + 1) + r := ih (k + 1) _
        _ = k + (r + 1) := by omega
    · simp

/-- If every poll reports PROCESSING, the loop exhausts its fuel and fails
with the timeout error after exactly `k + fuelR` polls. -/
theorem pollLoop_all_processing (poll : Nat → FState)
    (hp : ∀ n, poll n = .processing) :
    ∀ (fuelR k : Nat),
      pollLoop poll fuelR k .processing = (.error .timeout, k + fuelR) := by
  intro fuelR
  induction fuelR with
  | zero => intro k; simp [pollLoop]
  | succ r ih =>
    intro k
    have harith : k + 1 + r = k + (r + 1) := by omega
    simp only [pollLoop]
    rw [hp k, ih (k + 1), harith]
    simp

/-- C3: the readiness-polling loop of `analyze_audio`
(gemini_service.py:163-175) is bounded: it performs at most 30 polls in
every run; if the handle state remains PROCESSING on every poll it performs
exactly 30 polls and `analyze_audio` fails with the timeout error; and if
the loop exits with state FAILED, `analyze_audio` fails with the
processing-failed error. -/
theorem poll_loop_bounded (poll : Nat → FState) (st₀ : FState)
    (gen : Except AErr (List Char)) (d : Except AErr Unit) :
    (pollLoop poll 30 0 st₀).2 ≤ 30 ∧
    (st₀ = .processing → (∀ n, poll n = .processing) →
      pollLoop poll 30 0 st₀ = (.error .timeout, 30) ∧
      (analyzeAudio (.ok st₀) poll gen d).1 = .error .timeout) ∧
    ((pollLoop poll 30 0 st₀).1 = .ok .failed →
      (analyzeAudio (.ok st₀) poll gen d).1 = .error .processingFailed) := by
  refine ⟨?_, ?_, ?_⟩
  · simpa using pollLoop_count_le poll 30 0 st₀
  · intro h0 hp
    subst h0
    have h := pollLoop_all_processing poll hp 30 0
    refine ⟨by simpa using h, ?_⟩
    simp [analyzeAudio, h]
  · intro h
    simp [analyzeAudio, h]

theorem poll_loop_bounded_witness :
    (pollLoop (fun _ => FState.processing) 30 0 .processing).2 ≤ 30 ∧
    pollLoop (fun _ => FState.processing) 30 0 .processing
      = (.error .timeout, 30) ∧
    (analyzeAudio (.ok .processing) (fun _ => FState.processing) (.ok [])
      (.ok ())).1 = .error .timeout ∧
    (analyzeAudio (.ok .processing) (fun _ => FState.failed) (.ok [])
      (.ok ())).1 = .error .processingFailed :=
  ⟨(poll_loop_bounded (fun _ => .processing) .processing (.ok []) (.ok ())).1,
   ((poll_loop_bounded (fun _ => .processing) .processing (.ok [])
      (.ok ())).2.1 rfl (fun _ => rfl)).1,
   ((poll_loop_bounded (fun _ => .processing) .processing (.ok [])
      (.ok ())).2.1 rfl (fun _ => rfl)).2,
   (poll_loop_bounded (fun _ => .failed) .processing (.ok [])
      (.ok ())).2.2 rfl⟩

/-- C6 counterexample: on the given input, `_extract_confirmation_items`
does not return `["見積書確認"]`: the marker `"4. 次回までの確認"` splits the
heading line in its middle, and the residue `・準備事項` is picked up as a
bullet item. -/
theorem extract_sample_counterexample :
    extractItemsStr
      "4. 次回までの確認・準備事項\n【お客様】\n・見積書確認\n5. 補足メモ\n特になし"
      ≠ ["見積書確認"] := by
  decide

/-- C6 amended: on the given input, `_extract_confirmation_items` returns
`["準備事項", "見積書確認"]` — the bracket-only sub-heading line is skipped
and the slice ends at the `"5."` section boundary, as claimed, but the
remainder of the heading line after the section marker is also extracted as
an item. -/
theorem extract_sample_amended :
    extractItemsStr
      "4. 次回までの確認・準備事項\n【お客様】\n・見積書確認\n5. 補足メモ\n特になし"
      = ["準備事項", "見積書確認"] := by
  decide

/-- C8 counterexample: a text in which a section marker
(`【💡確認事項】`) is present, the section contributes no items, and the
whole-text keyword fallback nevertheless determines the result
(gemini_service.py:357 guards the fallback only by `len(items) == 0`, not by
the absence of a marker). -/
theorem keyword_fallback_counterexample :
    (sectionMarkers.any fun m =>
      containsSub "明日までに資料を確認する\n【💡確認事項】\n特になし".toList m) = true ∧
    sectionItems "明日までに資料を確認する\n【💡確認事項】\n特になし".toList = [] ∧
    extractItemsStr "明日までに資料を確認する\n【💡確認事項】\n特になし"
      = ["明日までに資料を確認する"] ∧
    extractConfirmationItems "明日までに資料を確認する\n【💡確認事項】\n特になし".toList
      ≠ (sectionItems "明日までに資料を確認する\n【💡確認事項】\n特になし".toList).take 10 := by
  refine ⟨by decide, by decide, by decide, by decide⟩

/-- C8 amended: the whole-text keyword fallback of
`_extract_confirmation_items` is used exactly when the section-based
extraction yields no items (which includes, but is not limited to, the case
where no section marker is found); whenever the section-based extraction
yields at least one item, the result is determined solely by it. -/
theorem keyword_fallback_amended (t : List Char) :
    (sectionItems t ≠ [] →
      extractConfirmationItems t = (sectionItems t).take 10) ∧
    (sectionItems t = [] →
      extractConfirmationItems t = (kwScan t).take 10) := by
  constructor
  · intro h
    have hlen : ¬(sectionItems t).length = 0 := by
      simpa [List.length_eq_zero] using h
    simp [extractConfirmationItems, hlen]
  · intro h
    simp [extractConfirmationItems, h]

theorem keyword_fallback_amended_witness :
    extractConfirmationItems
        "4. 次回までの確認・準備事項\n・見積書確認".toList
      = (sectionItems "4. 次回までの確認・準備事項\n・見積書確認".toList).take 10 ∧
    extractConfirmationItems
        "明日までに資料を確認する\n【💡確認事項】\n特になし".toList
      = (kwScan "明日までに資料を確認する\n【💡確認事項】\n特になし".toList).take 10 :=
  ⟨(keyword_fallback_amended
      "4. 次回までの確認・準備事項\n・見積書確認".toList).1 (by decide),
   (keyword_fallback_amended
      "明日までに資料を確認する\n【💡確認事項】\n特になし".toList).2 (by decide)⟩

/-- `dict.fromkeys` keeps a subsequence of its input (order preserved). -/
theorem dedupFirstAux_sublist :
    ∀ (l seen : List (List Char)), (dedupFirstAux l seen).Sublist l := by
  intro l
  induction l with
  | nil => intro seen; simp [dedupFirstAux]
  | cons a t ih =>
    intro seen
    simp only [dedupFirstAux]
    split
    · exact List.sublist_cons_of_sublist a (ih seen)
    · exact (ih (a :: seen)).cons₂ a

/-- `dict.fromkeys` yields no duplicates, and none of its output keys was
already in the seen-set. -/
theorem dedupFirstAux_nodup :
    ∀ (l seen : List (List Char)),
      (dedupFirstAux l seen).Nodup ∧
      ∀ x ∈ dedupFirstAux l seen, x ∉ seen := by
  intro l
  induction l with
  | nil => intro seen; simp [dedupFirstAux]
  | cons a t ih =>
    intro seen
    simp only [dedupFirstAux]
    split
    · exact ih seen
    · rename_i ha
      refine ⟨?_, ?_⟩
      · refine List.nodup_cons.2 ⟨?_, (ih (a :: seen)).1⟩
        intro hmem
        exact (ih (a :: seen)).2 a hmem (List.mem_cons_self a seen)
      · intro x hx
        rcases List.mem_cons.1 hx with h | h
        · subst h; exact ha
        · intro hxs
          exact (ih (a :: seen)).2 x h (List.mem_cons_of_mem a hxs)

/-- Every input element still occurs in the `dict.fromkeys` output (or was
already in the seen-set). -/
theorem dedupFirstAux_mem :
    ∀ (l seen : List (List Char)) (x : List Char),
      x ∈ l → x ∈ seen ∨ x ∈ dedupFirstAux l seen := by
  intro l
  induction l with
  | nil => intro seen x hx; cases hx
  | cons a t ih =>
    intro seen x hx
    simp only [dedupFirstAux]
    split
    · rename_i ha
      rcases List.mem_cons.1 hx with h | h
      · subst h; exact Or.inl ha
      · exact ih seen x h
    · rcases List.mem_cons.1 hx with h | h
      · subst h; exact Or.inr (List.mem_cons_self _ _)
      · rcases ih (a :: seen) x h with hs | hd
        · rcases List.mem_cons.1 hs with h' | h'
          · subst h'; exact Or.inr (List.mem_cons_self _ _)
          · exact Or.inl h'
        · exact Or.inr (List.mem_cons_of_mem _ hd)

/-- C4: if the provider merge call raises, `merge_summaries`
(gemini_service.py:268-271) returns — and, being a total function, never
raises — the deterministic fallback document of `_fallback_merge`
(gemini_service.py:273-288): the bullet-prefixed lines of all input partial
summaries in original order, exact duplicates removed keeping the first
occurrence, truncated to at most 20 lines, under the single generic heading
`【打合せ内容】`. -/
theorem merge_failure_fallback
    (provider : List Char → Except PErr (List Char))
    (summaries : List (List Char)) (e : PErr)
    (h : provider (buildMergePrompt summaries) = .error e) :
    mergeSummaries provider summaries = fallbackMerge summaries ∧
    fallbackMerge summaries =
      "【打合せ内容】\n".toList ++
        joinNl ((dedupFirst (bulletLines summaries)).take 20) ∧
    ((dedupFirst (bulletLines summaries)).take 20).length ≤ 20 ∧
    ((dedupFirst (bulletLines summaries)).take 20).Nodup ∧
    ((dedupFirst (bulletLines summaries)).take 20).Sublist
      (bulletLines summaries) ∧
    (∀ x ∈ bulletLines summaries, x ∈ dedupFirst (bulletLines summaries)) := by
  refine ⟨?_, rfl, ?_, ?_, ?_, ?_⟩
  · simp only [mergeSummaries, h]
  · exact (List.length_take 20 _).trans_le (min_le_left _ _)
  · exact ((List.take_sublist _ _).nodup
      (dedupFirstAux_nodup (bulletLines summaries) []).1)
  · exact (List.take_sublist _ _).trans
      (dedupFirstAux_sublist (bulletLines summaries) [])
  · intro x hx
    rcases dedupFirstAux_mem (bulletLines summaries) [] x hx with h' | h'
    · cases h'
    · exact h'

theorem merge_failure_fallback_witness :
    mergeSummaries (fun _ => .error .providerFailure)
        (["本文\n・予算は500万円\n・予算は500万円\n補足",
          "・食洗機を追加\nメモ"].map String.toList)
      = fallbackMerge
          (["本文\n・予算は500万円\n・予算は500万円\n補足",
            "・食洗機を追加\nメモ"].map String.toList) ∧
    ((dedupFirst (bulletLines
        (["本文\n・予算は500万円\n・予算は500万円\n補足",
          "・食洗機を追加\nメモ"].map String.toList))).take 20).Nodup :=
  ⟨(merge_failure_fallback (fun _ => .error .providerFailure)
      (["本文\n・予算は500万円\n・予算は500万円\n補足",
        "・食洗機を追加\nメモ"].map String.toList) .providerFailure rfl).1,
   (merge_failure_fallback (fun _ => .error .providerFailure)
      (["本文\n・予算は500万円\n・予算は500万円\n補足",
        "・食洗機を追加\nメモ"].map String.toList) .providerFailure
      rfl).2.2.2.1⟩

/-- When every task succeeds, the gather loop runs to completion and its
slot accumulator (a) only holds slots matching the task list, (b) holds a
slot for every scheduled in-range index, and (c) extends the initial
accumulator. -/
theorem gatherLoop_ok_inv {σ ε α : Type} (f : σ → α) (segs : List σ) :
    ∀ (order : List Nat) (acc : List (Nat × α)),
      ∃ acc',
        gatherLoop (segs.map fun s => (Except.ok (f s) : Except ε α)) order acc
          = .ok acc' ∧
        (∀ q ∈ acc', q ∈ acc ∨
          (segs.map fun s => (Except.ok (f s) : Except ε α)).get? q.1
            = some (.ok q.2)) ∧
        (∀ j, j ∈ order → j < segs.length → ∃ a, (j, a) ∈ acc') ∧
        (∀ q ∈ acc, q ∈ acc') := by
  intro order
  induction order with
  | nil =>
    intro acc
    exact ⟨acc, rfl, fun q hq => Or.inl hq, by simp, fun q hq => hq⟩
  | cons i rest ih =>
    intro acc
    simp only [gatherLoop]
    cases hti : (segs.map fun s => (Except.ok (f s) : Except ε α)).get? i with
    | none =>
      obtain ⟨acc', hrun, hmem, hcov, hsub⟩ := ih acc
      refine ⟨acc', hrun, hmem, ?_, hsub⟩
      intro j hj hjlen
      rcases List.mem_cons.1 hj with rfl | hj'
      · exfalso
        have hlen := List.get?_eq_none.mp hti
        rw [List.length_map] at hlen
        omega
      · exact hcov j hj' hjlen
    | some v =>
      obtain ⟨s, hs, rfl⟩ : ∃ s, segs.get? i = some s ∧ v = Except.ok (f s) := by
        have h' := hti
        rw [List.get?_map] at h'
        rcases Option.map_eq_some'.mp h' with ⟨s, hs, hv⟩
        exact ⟨s, hs, hv.symm⟩
      obtain ⟨acc', hrun, hmem, hcov, hsub⟩ := ih ((i, f s) :: acc)
      refine ⟨acc', hrun, ?_, ?_, ?_⟩
      · intro q hq
        rcases hmem q hq with hq' | hq'
        · rcases List.mem_cons.1 hq' with rfl | hq''
          · exact Or.inr hti
          · exact Or.inl hq''
        · exact Or.inr hq'
      · intro j hj hjlen
        rcases List.mem_cons.1 hj with rfl | hj'
        · exact ⟨f s, hsub _ (List.mem_cons_self _ _)⟩
        · exact hcov j hj' hjlen
      · intro q hq
        exact hsub q (List.mem_cons_of_mem _ hq)

/-- A slot key that occurs in the accumulator is found by `lookupNat`, and
the value found is one of the accumulator's entries for that key. -/
theorem lookupNat_mem {α : Type} :
    ∀ (acc : List (Nat × α)) (j : Nat), (∃ a, (j, a) ∈ acc) →
      ∃ b, lookupNat j acc = some b ∧ (j, b) ∈ acc := by
  intro acc
  induction acc with
  | nil =>
    intro j h
    rcases h with ⟨a, ha⟩
    cases ha
  | cons p t ih =>
    intro j h
    rcases p with ⟨k, c⟩
    by_cases hk : j = k
    · subst hk
      exact ⟨c, by simp [lookupNat], List.mem_cons_self _ _⟩
    · rcases h with ⟨a, ha⟩
      rcases List.mem_cons.1 ha with h' | h'
      · exact absurd (congrArg Prod.fst h') hk
      · obtain ⟨b, hb, hbm⟩ := ih j ⟨a, h'⟩
        exact ⟨b, by simp [lookupNat, hk, hb], List.mem_cons_of_mem _ hbm⟩

/-- Reading the slots back in input order recovers the mapped input list
when every slot holds the corresponding value. -/
theorem readSlots_map {σ α : Type} (f : σ → α) (acc : List (Nat × α)) :
    ∀ (l : List σ) (start : Nat),
      (∀ k (hk : k < l.length),
        lookupNat (start + k) acc = some (f (l.get ⟨k, hk⟩))) →
      readSlots acc start l.length = some (l.map f) := by
  intro l
  induction l with
  | nil => intro start _; rfl
  | cons s t ih =>
    intro start h
    have h0 : lookupNat start acc = some (f s) := h 0 (Nat.succ_pos _)
    simp only [List.length_cons, readSlots, h0]
    rw [ih (start + 1) ?_]
    · rfl
    · intro k hk
      have hx := h (k + 1) (Nat.succ_lt_succ hk)
      have harith : start + (k + 1) = start + 1 + k := by omega
      rw [harith] at hx
      exact hx

/-- C1: the parallel dispatch of `upload_audio` (main.py:318-325) —
one analysis task per segment, results gathered by `asyncio.gather` — is
order-preserving: for every list of segments and every completion
interleaving that completes all tasks, the result is the list of
per-segment analysis results in input ordinal order, with the same length
as the input. -/
theorem dispatch_preserves_order {σ ε α : Type} (f : σ → α) (segs : List σ)
    (order : List Nat) (hcov : ∀ j, j < segs.length → j ∈ order) :
    dispatchSegments (fun s => (Except.ok (f s) : Except ε α)) segs order
      = .ok (segs.map f) := by
  obtain ⟨acc', hrun, hmem, hcovA, hsub⟩ := gatherLoop_ok_inv f segs order []
  have hread :
      readSlots acc' 0
          (segs.map fun s => (Except.ok (f s) : Except ε α)).length
        = some (segs.map f) := by
    rw [List.length_map]
    refine readSlots_map f acc' segs 0 ?_
    intro k hk
    obtain ⟨a, ha⟩ := hcovA k (hcov k hk) hk
    obtain ⟨b, hb, hbm⟩ := lookupNat_mem acc' k ⟨a, ha⟩
    rcases hmem (k, b) hbm with h' | h'
    · cases h'
    · have h2 : (segs.map fun s => (Except.ok (f s) : Except ε α)).get? k
          = some (.ok (f (segs.get ⟨k, hk⟩))) := by
        rw [List.get?_map, List.get?_eq_get hk]
        rfl
      have h3 := h2.symm.trans h'
      have hfb : f (segs.get ⟨k, hk⟩) = b := by
        injection h3 with h''
        injection h''
      rw [Nat.zero_add, hb, ← hfb]
  unfold dispatchSegments asyncGather
  rw [hrun]
  dsimp only
  rw [hread]

theorem dispatch_preserves_order_witness :
    (∀ j, j < [5, 10, 15].length → j ∈ [2, 0, 1]) ∧
    dispatchSegments (fun s => (Except.ok (s + 1) : Except Unit Nat))
        [5, 10, 15] [2, 0, 1]
      = .ok ([5, 10, 15].map (· + 1)) :=
  ⟨by decide,
   dispatch_preserves_order (· + 1) [5, 10, 15] [2, 0, 1] (by decide)⟩

/-- If some scheduled task raised, the gather loop aborts with an error. -/
theorem gatherLoop_err {ε α : Type} (tasks : List (Except ε α)) (i : Nat)
    (e : ε) (hi : tasks.get? i = some (.error e)) :
    ∀ (order : List Nat), i ∈ order → ∀ acc,
      ∃ e', gatherLoop tasks order acc = .error e' := by
  intro order
  induction order with
  | nil => intro h; cases h
  | cons j rest ih =>
    intro hmem acc
    simp only [gatherLoop]
    cases htj : tasks.get? j with
    | none =>
      have hji : j ≠ i := by
        intro h
        subst h
        rw [hi] at htj
        cases htj
      have hirest : i ∈ rest := by
        rcases List.mem_cons.1 hmem with h | h
        · exact absurd h.symm hji
        · exact h
      obtain ⟨e', he'⟩ := ih hirest acc
      exact ⟨e', he'⟩
    | some v =>
      cases v with
      | error e'' => exact ⟨e'', rfl⟩
      | ok a =>
        have hji : j ≠ i := by
          intro h
          subst h
          rw [hi] at htj
          cases htj
        have hirest : i ∈ rest := by
          rcases List.mem_cons.1 hmem with h | h
          · exact absurd h.symm hji
          · exact h
        obtain ⟨e', he'⟩ := ih hirest ((j, a) :: acc)
        exact ⟨e', he'⟩

/-- C2: if the analysis call for any single segment raises, the dispatch of
the whole batch (`asyncio.gather` without `return_exceptions`,
main.py:322-323) raises and produces no partial results: the gathered
outcome is an error value carrying no summary list, and is never `.ok`. -/
theorem failed_segment_fails_batch {ε α : Type} (tasks : List (Except ε α))
    (order : List Nat) (hcov : ∀ j, j < tasks.length → j ∈ order)
    (i : Nat) (e : ε) (hi : tasks.get? i = some (.error e)) :
    (∃ e', asyncGather tasks order = .error (.taskErr e')) ∧
    ∀ l, asyncGather tasks order ≠ .ok l := by
  have hilen : i < tasks.length := by
    by_contra h
    rw [List.get?_eq_none.mpr (Nat.le_of_not_lt h)] at hi
    cases hi
  obtain ⟨e', he'⟩ := gatherLoop_err tasks i e hi order (hcov i hilen) []
  refine ⟨⟨e', ?_⟩, ?_⟩
  · simp only [asyncGather, he']
  · intro l hl
    simp only [asyncGather, he'] at hl
    cases hl

theorem failed_segment_fails_batch_witness :
    (∀ j, j < [Except.ok 1, Except.error "boom", Except.ok 3].length →
      j ∈ [1, 2, 0]) ∧
    (∃ e', asyncGather [Except.ok 1, Except.error "boom", Except.ok 3]
        [1, 2, 0] = .error (.taskErr e')) ∧
    ∀ l, asyncGather [Except.ok 1, Except.error "boom", Except.ok 3]
        [1, 2, 0] ≠ .ok l :=
  ⟨by decide,
   (failed_segment_fails_batch [Except.ok 1, Except.error "boom", Except.ok 3]
      [1, 2, 0] (by decide) 1 "boom" rfl).1,
   (failed_segment_fails_batch [Except.ok 1, Except.error "boom", Except.ok 3]
      [1, 2, 0] (by decide) 1 "boom" rfl).2⟩

/-- Re-running the Deduplicator's line filter over its own output changes
nothing, for every state whose second-pass repeat counter is at most the
first-pass one and whose seen-set already covers a header previous line.
The invariant holds because the filter's previous-line tracking follows the
last KEPT line, so the pairs of adjacent lines compared in a second pass
are exactly the pairs already compared (and kept) in the first. -/
theorem cleanGo_idem :
    ∀ (lines : List (List Char)) (p : Option (List Char)) (c c' : Nat)
      (seen : List (List Char)),
      c' ≤ c →
      (∀ q, p = some q → isHdr q = true → hdrKey q ∈ seen) →
      cleanGo (cleanGo lines p c seen) p c' seen = cleanGo lines p c seen := by
  intro lines
  induction lines with
  | nil => intro p c c' seen _ _; rfl
  | cons line rest ih =>
    intro p c c' seen hc hp
    cases p with
    | none =>
      by_cases h1 : stripChars line = []
      · simp only [cleanGo, if_pos h1]
        rw [ih none 0 0 seen (le_refl 0) (by intro q hq; cases hq)]
      · by_cases h2 : isHdr (stripChars line) = true
        · by_cases h3 : hdrKey (stripChars line) ∈ seen
          · simp only [cleanGo, if_neg h1, if_pos h2, if_pos h3]
            exact ih none c c' seen hc hp
          · simp only [cleanGo, if_neg h1, if_pos h2, if_neg h3]
            rw [ih (some (stripChars line)) 1 1 (hdrKey (stripChars line) :: seen)
              (le_refl 1) ?_]
            intro q hq _
            injection hq with hq
            subst hq
            exact List.mem_cons_self _ _
        · simp only [cleanGo, if_neg h1, if_neg h2]
          rw [ih (some (stripChars line)) 1 1 seen (le_refl 1) ?_]
          intro q hq hh
          injection hq with hq
          subst hq
          exact absurd hh h2
    | some p =>
      by_cases h1 : stripChars line = []
      · simp only [cleanGo, if_pos h1]
        rw [ih none 0 0 seen (le_refl 0) (by intro q hq; cases hq)]
      · by_cases h2 : stripChars line = p
        · by_cases h3 : 2 ≤ c
          · simp only [cleanGo, if_neg h1, if_pos h2, if_pos h3]
            exact ih (some p) (c + 1) c' seen (hc.trans (Nat.le_succ c)) hp
          · have h3' : ¬2 ≤ c' := fun h => h3 (h.trans hc)
            simp only [cleanGo, if_neg h1, if_pos h2, if_neg h3, if_neg h3']
            rw [ih (some p) (c + 1) (c' + 1) seen (Nat.succ_le_succ hc) hp]
        · by_cases h3 : bulletSim p (stripChars line) = true
          · simp only [cleanGo, if_neg h1, if_neg h2, if_pos h3]
            exact ih (some p) c c' seen hc hp
          · by_cases h4 : isHdr (stripChars line) = true
            · by_cases h5 : hdrKey (stripChars line) ∈ seen
              · simp only [cleanGo, if_neg h1, if_neg h2, if_neg h3, if_pos h4,
                  if_pos h5]
                exact ih (some p) c c' seen hc hp
              · simp only [cleanGo, if_neg h1, if_neg h2, if_neg h3, if_pos h4,
                  if_neg h5]
                rw [ih (some (stripChars line)) 1 1
                  (hdrKey (stripChars line) :: seen) (le_refl 1) ?_]
                intro q hq _
                injection hq with hq
                subst hq
                exact List.mem_cons_self _ _
            · simp only [cleanGo, if_neg h1, if_neg h2, if_neg h3, if_neg h4]
              rw [ih (some (stripChars line)) 1 1 seen (le_refl 1) ?_]
              intro q hq hh
              injection hq with hq
              subst hq
              exact absurd hh h4

/-- C9 (spec-modelled: the Deduplicator is absent from src/): the
Deduplicator's `clean` operation is idempotent — for every input text
(given as its list of lines), `clean (clean text) = clean text`. -/
theorem clean_idempotent (lines : List (List Char)) :
    clean (clean lines) = clean lines :=
  cleanGo_idem lines none 0 0 [] (le_refl 0) (by intro q hq; cases hq)

end Onsei
